import Mathlib

/-!
Verification development for the `dothub` dotfile manager (`src/main.rs`).

The development shallowly embeds the core of the program:

* `derive_repo_name` — the pure URL-to-name transform (`derive_repo_name` in
  `main.rs`), modelled on `List Char`.  Rust's `trim_end_matches` removes
  *all* matching suffixes repeatedly; the embedding mirrors that with a
  fuelled recursion (fuel = list length, which bounds the iteration count).
* `remove_path` — the removal step of the link reconciler, modelled over an
  oracle environment that supplies the outcome of each filesystem call
  (`symlink_metadata`, `remove_file`, `remove_dir_all`).
* `cmd_link` — the link reconciler over an ideal in-memory filesystem
  (a map from paths to nodes) in which the individual syscalls succeed.
* `cmd_install` / `cmd_update` — the orchestrator commands, modelled as
  effect traces over an environment describing the relevant filesystem
  facts and the exit behaviour of the external `git` processes.
-/

namespace Dotman

/-! ## URL-to-name derivation (`derive_repo_name` in `main.rs`)

The Rust code is

```
let trimmed = repo_url.trim_end_matches('/').trim_end_matches(".git");
trimmed.rsplit('/').next().unwrap_or(trimmed).to_string()
```

`trim_end_matches` removes every occurrence of the matching suffix
(repeatedly), and `rsplit('/').next()` is the substring after the last `/`
(the whole string when there is no `/`).  We model strings by their
character lists, working on the reversed list so that trailing matches
become leading matches.
-/

/-- Embedding of Rust `trim_end_matches(c)` on a reversed character list:
remove every leading occurrence of `c`. -/
def revTrimChar (c : Char) (l : List Char) : List Char :=
  l.dropWhile (fun x => x == c)

/-- Embedding of Rust `trim_end_matches(pat)` on a reversed character list:
repeatedly remove the leading occurrence of `pat` (itself reversed).  The
fuel bounds the number of iterations; each iteration removes at least one
character, so fuel equal to the list length is always sufficient. -/
def revTrimStrFuel (pat : List Char) : Nat → List Char → List Char
  | 0, l => l
  | fuel+1, l =>
    if pat ≠ [] ∧ pat.isPrefixOf l then revTrimStrFuel pat fuel (l.drop pat.length)
    else l

/-- The reversal of `".git"`, the pattern stripped by `derive_repo_name`. -/
def gitRev : List Char := (".git" : String).data.reverse

/-- Embedding of `derive_repo_name` from `main.rs`: strip all trailing `/`,
then repeatedly strip a trailing `".git"`, then keep the final
`/`-separated segment (Rust `rsplit('/').next()`). -/
def derive_repo_name (url : String) : String :=
  let r := url.data.reverse
  let r1 := revTrimChar '/' r
  let r2 := revTrimStrFuel gitRev r1.length r1
  String.mk ((r2.takeWhile (fun x => x != '/')).reverse)

/-- Transform described by the spec's words read literally: strip *one*
trailing `/`, then *one* trailing `".git"`, then keep the final
`/`-separated segment. -/
def derive_repo_name_onestrip (url : String) : String :=
  let r := url.data.reverse
  let r1 := if r.head? = some '/' then r.tail else r
  let r2 := if gitRev.isPrefixOf r1 then r1.drop 4 else r1
  String.mk ((r2.takeWhile (fun x => x != '/')).reverse)

/-- Spec-worded all-stripping transform, first stage: while the string ends
with `/`, drop the last character. -/
def stripSlashesSpec : Nat → List Char → List Char
  | 0, l => l
  | fuel+1, l =>
    if l.getLast? = some '/' then stripSlashesSpec fuel l.dropLast else l

/-- Spec-worded all-stripping transform, second stage: while the string ends
with `".git"`, drop those four characters. -/
def stripGitsSpec : Nat → List Char → List Char
  | 0, l => l
  | fuel+1, l =>
    if (".git" : String).data.isSuffixOf l then
      stripGitsSpec fuel (l.take (l.length - 4))
    else l

/-- Spec-worded final stage: the final `/`-separated path segment. -/
def finalSegmentSpec (l : List Char) : List Char :=
  (l.reverse.takeWhile (fun x => x != '/')).reverse

/-- Spec-worded pipeline for the (amended) description of
`derive_repo_name`: strip all trailing slashes, then repeatedly strip a
trailing `".git"`, then take the final `/`-separated path segment. -/
def derive_repo_name_spec (url : String) : String :=
  let l1 := stripSlashesSpec url.data.length url.data
  let l2 := stripGitsSpec l1.length l1
  String.mk (finalSegmentSpec l2)

/-! ## The removal step (`remove_path` in `main.rs`), over syscall oracles

```
fn remove_path(path: &Path) -> Result<()> {
    match fs::symlink_metadata(path) {
        Ok(md) if md.file_type().is_symlink() => fs::remove_file(path)...,
        Ok(md) if md.is_dir() => fs::remove_dir_all(path)...,
        Ok(_md) => fs::remove_file(path)...,
        Err(e) if e.kind() == io::ErrorKind::NotFound => Ok(()),
        Err(e) => Err(e)...,
    }
}
```

The outcomes of the three filesystem calls are supplied by an oracle
environment, so racing deletions (the path disappearing between the stat
and the removal call) are expressible. -/

/-- Kinds of I/O errors distinguished by the code. -/
inductive ErrKind
  | notFound
  | permissionDenied
  | otherErr
deriving DecidableEq

/-- What `fs::symlink_metadata` reports about the path's own entry: the
file type of the entry itself, symlinks not followed.  `otherFile` covers
regular files and every non-directory, non-symlink kind. -/
inductive FType
  | symlink
  | dir
  | otherFile
deriving DecidableEq

/-- Oracle outcomes for the syscalls `remove_path` can make. -/
structure RemoveEnv where
  statRes : Except ErrKind FType
  removeFileRes : Except ErrKind Unit
  removeDirAllRes : Except ErrKind Unit

/-- Which removal action `remove_path` completed. -/
inductive RemoveOp
  | unlinkedSymlink
  | removedDirTree
  | removedSingleFile
  | nothingToRemove
deriving DecidableEq

/-- Embedding of `remove_path`: classify by the symlink-aware stat and
dispatch to the matching removal call; `NotFound` from the stat is
success, any other stat error and any error from the removal call itself
propagate. -/
def remove_path (env : RemoveEnv) : Except ErrKind RemoveOp :=
  match env.statRes with
  | .ok .symlink =>
    match env.removeFileRes with
    | .ok _ => .ok .unlinkedSymlink
    | .error e => .error e
  | .ok .dir =>
    match env.removeDirAllRes with
    | .ok _ => .ok .removedDirTree
    | .error e => .error e
  | .ok .otherFile =>
    match env.removeFileRes with
    | .ok _ => .ok .removedSingleFile
    | .error e => .error e
  | .error .notFound => .ok .nothingToRemove
  | .error e => .error e

/-! ## Ideal filesystem model for the link reconciler (`cmd_link`)

The filesystem is a map from absolute path strings to nodes; `none` means
the path is absent.  Individual syscalls succeed in this model (permission
failures are studied through the oracle model above), which is the setting
of the reconciliation claims: existence decisions, removal policy,
replacement, and idempotence. -/

/-- A node of the ideal filesystem: the entry's own kind, symlinks not
followed.  A symlink records its destination path verbatim. -/
inductive Node
  | file
  | dir
  | symlinkTo (dest : String)
deriving DecidableEq

/-- The ideal filesystem: path to node, `none` when absent. -/
abbrev FS := String → Option Node

/-- Pointwise update of the filesystem. -/
def setNode (fs : FS) (p : String) (n : Option Node) : FS :=
  fun q => if q = p then n else fs q

/-- Whether path `q` lies strictly below directory path `dir`. -/
def isUnder (dir q : String) : Bool :=
  (dir.data ++ ['/']).isPrefixOf q.data

/-- Recursive directory removal: the path itself and everything below it. -/
def removeSubtree (fs : FS) (p : String) : FS :=
  fun q => if q = p || isUnder p q then none else fs q

/-- Symlink-chain resolution with fuel, as the OS does when a call follows
symlinks; Linux stops after 40 links. -/
def resolves (fs : FS) : Nat → String → Option Node
  | 0, _ => none
  | fuel+1, p =>
    match fs p with
    | some (Node.symlinkTo d) => resolves fs fuel d
    | o => o

/-- Symlink-following depth limit. -/
def maxFollows : Nat := 40

/-- Embedding of Rust `Path::exists()`: follows symlinks; `false` for a
dangling symlink. -/
def path_exists (fs : FS) (p : String) : Bool :=
  (resolves fs maxFollows p).isSome

/-- Embedding of `symlink_exists` from `main.rs`: `symlink_metadata`
succeeds and reports a symlink. -/
def symlink_exists (fs : FS) (p : String) : Bool :=
  match fs p with
  | some (Node.symlinkTo _) => true
  | _ => false

/-- Effects performed by `cmd_link` on the filesystem. -/
inductive LinkEff
  | createdConfigDir (p : String)
  | removedSymlinkAt (p : String)
  | removedDirTreeAt (p : String)
  | removedFileAt (p : String)
  | createdSymlink (target source : String)
deriving DecidableEq

/-- Error taxonomy of the commands (the Rust code uses untyped `anyhow`
errors; this enumerates the distinct `bail!`/`context` sites). -/
inductive CmdError
  | sourceNotFound
  | symlinkCreationFailed
  | storeUnwritable
  | invalidRepoUrl
  | toolNotFound
  | spawnFailed
  | cloneFailed
  | readDirFailed
  | pullSpawnFailed (p : String)
deriving DecidableEq

/-- Result of a `cmd_link` run: final filesystem, effect trace, outcome. -/
structure LinkOutcome where
  fs : FS
  effects : List LinkEff
  result : Except CmdError Unit

/-- Action of `remove_path` on the ideal filesystem (syscalls succeed):
a symlink is unlinked as a single entry, a directory is removed with its
subtree, any other entry is removed as a single file, and an absent path
is left alone (stat `NotFound` is success). -/
def remove_path_fs (fs : FS) (p : String) : FS × List LinkEff :=
  match fs p with
  | some (Node.symlinkTo _) => (setNode fs p none, [LinkEff.removedSymlinkAt p])
  | some Node.dir => (removeSubtree fs p, [LinkEff.removedDirTreeAt p])
  | some Node.file => (setNode fs p none, [LinkEff.removedFileAt p])
  | none => (fs, [])

/-- Creation of the new symlink at `target`: the `symlink` syscall fails
when an entry still occupies the target path. -/
def link_finish (fs2 : FS) (effs : List LinkEff) (source target : String) :
    LinkOutcome :=
  if fs2 target = none then
    ⟨setNode fs2 target (some (Node.symlinkTo source)),
     effs ++ [LinkEff.createdSymlink target source], Except.ok ()⟩
  else ⟨fs2, effs, Except.error CmdError.symlinkCreationFailed⟩

/-- Replacement phase of `cmd_link`, after the source pre-check and config
directory handling: remove whatever sits at `target` when the code's
existence test (`target.exists() || symlink_exists(&target)`) fires, then
create the symlink. -/
def link_replace (fs : FS) (effs : List LinkEff) (source target : String) :
    LinkOutcome :=
  if path_exists fs target || symlink_exists fs target then
    link_finish (remove_path_fs fs target).1
      (effs ++ (remove_path_fs fs target).2) source target
  else
    link_finish fs effs source target

/-- Embedding of `cmd_link`: fail fast when the source does not exist
(`Path::exists`, following symlinks), create the configuration directory
when absent, then reconcile the target. -/
def cmd_link (fs : FS) (source configDir target : String) : LinkOutcome :=
  if path_exists fs source = false then
    ⟨fs, [], Except.error CmdError.sourceNotFound⟩
  else if path_exists fs configDir then
    link_replace fs [] source target
  else
    link_replace (setNode fs configDir (some Node.dir))
      [LinkEff.createdConfigDir configDir] source target

/-! ## Orchestrator traces: `cmd_install` and `cmd_update`

These commands are modelled as effect traces over an environment that
fixes the relevant filesystem facts and the behaviour of the external
`git` processes (only the exit status of which is consulted). -/

/-- Externally visible effects of `cmd_install`. -/
inductive InstallEff
  | createdStoreDir
  | invokedClone (url : String) (name : String)
deriving DecidableEq

/-- Environment of an install run. -/
structure InstallEnv where
  /-- Whether the store root `/usr/local/share/dotman` already exists. -/
  storeExists : Bool
  /-- Whether `fs::create_dir_all` on the store root would succeed. -/
  createStoreOk : Bool
  /-- Whether `<store>/<name>` exists, per candidate name. -/
  destExists : String → Bool
  /-- Whether `git` is found on the search path. -/
  gitOnPath : Bool
  /-- Whether spawning `git clone` succeeds. -/
  spawnOk : Bool
  /-- Whether `git clone` exits with status zero. -/
  cloneExitOk : Bool

/-- Embedding of `ensure_dotman_dir`: create the store root when absent. -/
def ensure_dotman_dir (storeExists createStoreOk : Bool) :
    List InstallEff × Except CmdError Unit :=
  if storeExists then ([], Except.ok ())
  else if createStoreOk then ([InstallEff.createdStoreDir], Except.ok ())
  else ([], Except.error CmdError.storeUnwritable)

/-- Embedding of `cmd_install`: ensure the store, derive the name, reject
an empty name, return success when the destination already exists, check
for `git`, then clone. -/
def cmd_install (env : InstallEnv) (url : String) :
    List InstallEff × Except CmdError Unit :=
  match ensure_dotman_dir env.storeExists env.createStoreOk with
  | (effs, Except.error e) => (effs, Except.error e)
  | (effs, Except.ok _) =>
    let name := derive_repo_name url
    if name = "" then (effs, Except.error CmdError.invalidRepoUrl)
    else if env.destExists name then (effs, Except.ok ())
    else if env.gitOnPath = false then (effs, Except.error CmdError.toolNotFound)
    else
      let effs2 := effs ++ [InstallEff.invokedClone url name]
      if env.spawnOk = false then (effs2, Except.error CmdError.spawnFailed)
      else if env.cloneExitOk = false then (effs2, Except.error CmdError.cloneFailed)
      else (effs2, Except.ok ())

/-- One entry of the store directory, with the behaviour of the `git pull`
run in it. -/
structure RepoEntry where
  path : String
  /-- Whether the entry is a directory (`path.is_dir()`). -/
  isDir : Bool
  /-- Whether `<entry>/.git` exists. -/
  hasGit : Bool
  /-- Whether spawning `git pull` in the entry succeeds. -/
  spawnOk : Bool
  /-- Whether `git pull --ff-only` exits with status zero. -/
  pullExitOk : Bool
deriving DecidableEq

/-- Externally visible effects of `cmd_update`. -/
inductive UpdateEff
  | createdStoreDir
  | invokedPull (p : String)
  | pullFailedLog (p : String)
  | summaryLine (updated skipped : Nat)
deriving DecidableEq

/-- Environment of an update run. -/
structure UpdateEnv where
  storeExists : Bool
  createStoreOk : Bool
  gitOnPath : Bool
  /-- Whether `fs::read_dir` on the store succeeds. -/
  readDirOk : Bool
  entries : List RepoEntry

/-- The per-entry loop of `cmd_update`: skip non-directories silently,
count directories without `.git` as skipped, otherwise run `git pull`;
a non-zero exit is logged and not tallied, a spawn failure aborts. -/
def update_loop : List RepoEntry → Nat → Nat →
    List UpdateEff × Except CmdError (Nat × Nat)
  | [], updated, skipped => ([], Except.ok (updated, skipped))
  | e :: rest, updated, skipped =>
    if e.isDir = false then update_loop rest updated skipped
    else if e.hasGit = false then update_loop rest updated (skipped + 1)
    else if e.spawnOk = false then
      ([UpdateEff.invokedPull e.path], Except.error (CmdError.pullSpawnFailed e.path))
    else if e.pullExitOk then
      let r := update_loop rest (updated + 1) skipped
      (UpdateEff.invokedPull e.path :: r.1, r.2)
    else
      let r := update_loop rest updated skipped
      (UpdateEff.invokedPull e.path :: UpdateEff.pullFailedLog e.path :: r.1, r.2)

/-- Embedding of `cmd_update`: ensure the store, check for `git`, read the
store directory, loop over its entries, and print the terminal summary. -/
def cmd_update (env : UpdateEnv) : List UpdateEff × Except CmdError Unit :=
  if env.storeExists = false ∧ env.createStoreOk = false then
    ([], Except.error CmdError.storeUnwritable)
  else
    let eff0 : List UpdateEff :=
      if env.storeExists then [] else [UpdateEff.createdStoreDir]
    if env.gitOnPath = false then (eff0, Except.error CmdError.toolNotFound)
    else if env.readDirOk = false then (eff0, Except.error CmdError.readDirFailed)
    else
      match update_loop env.entries 0 0 with
      | (effs, Except.ok (u, s)) =>
        (eff0 ++ effs ++ [UpdateEff.summaryLine u s], Except.ok ())
      | (effs, Except.error e) => (eff0 ++ effs, Except.error e)

section UrlLemmas

lemma isPrefixOf_nil_eq {α : Type} [BEq α] {pat : List α}
    (h : pat.isPrefixOf ([] : List α) = true) : pat = [] := by
  cases pat with
  | nil => rfl
  | cons a as => simp [List.isPrefixOf] at h

lemma length_le_of_isPrefixOf {α : Type} [BEq α] :
    ∀ {pat s : List α}, pat.isPrefixOf s = true → pat.length ≤ s.length := by
  intro pat
  induction pat with
  | nil => intro s _; simp
  | cons a as ih =>
    intro s h
    cases s with
    | nil => simp [List.isPrefixOf] at h
    | cons b bs =>
      simp only [List.isPrefixOf, Bool.and_eq_true] at h
      simpa using ih h.2

lemma isPrefixOf_append_self {α : Type} [BEq α] [LawfulBEq α] :
    ∀ (l t : List α), l.isPrefixOf (l ++ t) = true := by
  intro l
  induction l with
  | nil => intro t; simp [List.isPrefixOf]
  | cons a as ih => intro t; simp [List.isPrefixOf, ih]

/-- The fuelled repeated-strip is independent of the fuel as soon as the
fuel covers the list length. -/
lemma revTrimStrFuel_stable (pat : List Char) :
    ∀ (f₁ f₂ : Nat) (l : List Char), l.length ≤ f₁ → l.length ≤ f₂ →
      revTrimStrFuel pat f₁ l = revTrimStrFuel pat f₂ l := by
  intro f₁
  induction f₁ with
  | zero =>
    intro f₂ l h1 _
    have hl : l = [] := by
      cases l with
      | nil => rfl
      | cons a as => simp at h1
    subst hl
    cases f₂ with
    | zero => rfl
    | succ m =>
      simp only [revTrimStrFuel]
      rw [if_neg]
      rintro ⟨hne, hpre⟩
      exact hne (isPrefixOf_nil_eq hpre)
  | succ n ih =>
    intro f₂ l h1 h2
    cases f₂ with
    | zero =>
      have hl : l = [] := by
        cases l with
        | nil => rfl
        | cons a as => simp at h2
      subst hl
      simp only [revTrimStrFuel]
      rw [if_neg]
      rintro ⟨hne, hpre⟩
      exact hne (isPrefixOf_nil_eq hpre)
    | succ m =>
      simp only [revTrimStrFuel]
      by_cases h : pat ≠ [] ∧ pat.isPrefixOf l
      · rw [if_pos h, if_pos h]
        have hlen : (l.drop pat.length).length ≤ n := by
          have hp : 1 ≤ pat.length := by
            cases hc : pat with
            | nil => exact absurd hc h.1
            | cons a as => simp
          have := length_le_of_isPrefixOf h.2
          simp only [List.length_drop]
          omega
        have hlen2 : (l.drop pat.length).length ≤ m := by
          have hp : 1 ≤ pat.length := by
            cases hc : pat with
            | nil => exact absurd hc h.1
            | cons a as => simp
          simp only [List.length_drop]
          omega
        exact ih m (l.drop pat.length) hlen hlen2
      · rw [if_neg h, if_neg h]

lemma gitRev_ne_nil : gitRev ≠ [] := by decide

lemma gitRev_length : gitRev.length = 4 := by decide

/-- First-stage bridge: the spec's one-character-at-a-time stripping of
trailing slashes agrees with the reversed `dropWhile` embedding. -/
lemma stripSlashesSpec_eq (fuel : Nat) :
    ∀ (l : List Char), l.length ≤ fuel →
      stripSlashesSpec fuel l = (revTrimChar '/' l.reverse).reverse := by
  induction fuel with
  | zero =>
    intro l h
    have hl : l = [] := by
      cases l with
      | nil => rfl
      | cons a as => simp at h
    subst hl
    simp [stripSlashesSpec, revTrimChar]
  | succ n ih =>
    intro l h
    cases hr : l.reverse with
    | nil =>
      have hl : l = [] := by simpa using congrArg List.reverse hr
      subst hl
      simp [stripSlashesSpec, revTrimChar]
    | cons c t =>
      have hl : l = t.reverse ++ [c] := by
        have := congrArg List.reverse hr
        simpa using this
      by_cases hc : c = '/'
      · subst hc
        have hlast : l.getLast? = some '/' := by
          rw [hl]; exact List.getLast?_concat _
        have hdrop : l.dropLast = t.reverse := by
          rw [hl]; exact List.dropLast_concat
        have hlen : t.reverse.length ≤ n := by
          have : l.length = t.length + 1 := by rw [hl]; simp
          simp only [List.length_reverse]
          omega
        simp only [stripSlashesSpec, hlast, if_pos rfl, hdrop]
        rw [ih t.reverse hlen]
        simp [revTrimChar, hr, List.dropWhile_cons]
      · have hlast : l.getLast? = some c := by
          rw [hl]; exact List.getLast?_concat _
        have hne : ¬ l.getLast? = some '/' := by
          rw [hlast]
          simp [hc]
        simp only [stripSlashesSpec, if_neg hne]
        have hdw : List.dropWhile (fun x => x == '/') (c :: t) = c :: t := by
          rw [List.dropWhile_cons, if_neg (by simp [hc])]
        simp only [revTrimChar]
        rw [hdw, ← hr, List.reverse_reverse]

/-- Second-stage bridge: the spec's suffix-test-and-truncate stripping of
trailing `".git"` markers agrees with the reversed fuelled embedding. -/
lemma stripGitsSpec_eq (fuel : Nat) :
    ∀ (l : List Char), l.length ≤ fuel →
      stripGitsSpec fuel l = (revTrimStrFuel gitRev l.reverse.length l.reverse).reverse := by
  induction fuel with
  | zero =>
    intro l h
    have hl : l = [] := by
      cases l with
      | nil => rfl
      | cons a as => simp at h
    subst hl
    simp [stripGitsSpec, revTrimStrFuel]
  | succ n ih =>
    intro l h
    by_cases hc : (".git" : String).data.isSuffixOf l = true
    · have hpre : gitRev.isPrefixOf l.reverse = true := by
        simpa [List.isSuffixOf, gitRev] using hc
      have hlen4 : 4 ≤ l.length := by
        have := length_le_of_isPrefixOf hpre
        rw [gitRev_length, List.length_reverse] at this
        exact this
      have hlpos : ∃ k, l.reverse.length = k + 1 := by
        refine ⟨l.length - 1, ?_⟩
        simp only [List.length_reverse]
        omega
      obtain ⟨k, hk⟩ := hlpos
      have hdrop : l.reverse.drop gitRev.length = (l.take (l.length - 4)).reverse := by
        rw [gitRev_length, List.reverse_take]
        congr 1
        omega
      have hlen' : (l.take (l.length - 4)).length ≤ n := by
        simp only [List.length_take]
        omega
      have hlenk : (l.take (l.length - 4)).reverse.length ≤ k := by
        simp only [List.length_reverse, List.length_take]
        have : l.reverse.length = l.length := List.length_reverse l
        omega
      simp only [stripGitsSpec, if_pos hc]
      rw [ih (l.take (l.length - 4)) hlen']
      rw [hk]
      simp only [revTrimStrFuel]
      rw [if_pos ⟨gitRev_ne_nil, hpre⟩, hdrop]
      congr 1
      exact revTrimStrFuel_stable gitRev _ _ _ (le_refl _) hlenk
    · have hpre : ¬ (gitRev.isPrefixOf l.reverse = true) := by
        intro hp
        exact hc (by simpa [List.isSuffixOf, gitRev] using hp)
      simp only [stripGitsSpec, if_neg hc]
      cases hk : l.reverse.length with
      | zero =>
        simp only [revTrimStrFuel]
        simp
      | succ m =>
        simp only [revTrimStrFuel]
        rw [if_neg (by rintro ⟨_, hp⟩; exact hpre hp)]
        simp

/-- Bridging the full pipelines: the embedding of the Rust
`derive_repo_name` equals the spec-worded all-stripping pipeline. -/
lemma derive_repo_name_eq_spec_pipeline (url : String) :
    derive_repo_name url = derive_repo_name_spec url := by
  simp only [derive_repo_name, derive_repo_name_spec, finalSegmentSpec]
  rw [stripSlashesSpec_eq url.data.length url.data (le_refl _)]
  rw [stripGitsSpec_eq _ _ (le_refl _)]
  simp [List.reverse_reverse, List.length_reverse]

/-- Trimming leaves a list alone when its head does not match. -/
lemma revTrimChar_eq_of_head_ne (r : List Char) (h : r.head? ≠ some '/') :
    revTrimChar '/' r = r := by
  cases r with
  | nil => rfl
  | cons a t =>
    have ha : (a == '/') = false := by
      cases hb : (a == '/') with
      | false => rfl
      | true =>
        exact absurd (by simp [(by simpa using hb : a = '/')]) h
    simp [revTrimChar, List.dropWhile_cons, ha]

/-- Single step of the fuelled stripper when the pattern matches. -/
lemma revTrimStrFuel_step (pat : List Char) (fuel : Nat) (l : List Char)
    (h : pat ≠ [] ∧ pat.isPrefixOf l) :
    revTrimStrFuel pat (fuel + 1) l = revTrimStrFuel pat fuel (l.drop pat.length) := by
  simp only [revTrimStrFuel]
  rw [if_pos h]

/-- Appending `".git"` and then repeatedly stripping it is the same as
repeatedly stripping it from the original string. -/
lemma revTrimStrFuel_git_cons (r : List Char) :
    revTrimStrFuel gitRev (gitRev ++ r).length (gitRev ++ r) =
      revTrimStrFuel gitRev r.length r := by
  have hlen : (gitRev ++ r).length = (r.length + 3) + 1 := by
    rw [List.length_append, gitRev_length]
    omega
  rw [hlen,
    revTrimStrFuel_step gitRev (r.length + 3) _
      ⟨gitRev_ne_nil, isPrefixOf_append_self gitRev r⟩,
    List.drop_left]
  exact revTrimStrFuel_stable gitRev _ _ r (by omega) (le_refl _)

end UrlLemmas

/-! ## Claim theorems: URL-to-name derivation (C5, C6, and the empty-name
facts used by C7) -/

/-- C5 counterexample.  The claim says `derive_repo_name` strips *one*
trailing `/` and then *one* trailing `.git` marker; on `"a.git.git"` the
code (Rust `trim_end_matches`, which strips repeatedly) yields `"a"`,
while the claimed one-strip transform yields `"a.git"`. -/
theorem derive_repo_name_onestrip_cex :
    derive_repo_name "a.git.git" = "a" ∧
    derive_repo_name_onestrip "a.git.git" = "a.git" ∧
    ¬ derive_repo_name "a.git.git" = derive_repo_name_onestrip "a.git.git" := by
  decide

/-- C5 (amended): for every URL string, `derive_repo_name` computes its
result by stripping *all* trailing `/` characters, then repeatedly
stripping a trailing `".git"` marker, then taking the final `/`-separated
path segment; it is a pure string transform (a total Lean function of the
string alone, with no filesystem or network inputs). -/
theorem derive_repo_name_is_spec_pipeline (url : String) :
    derive_repo_name url = derive_repo_name_spec url :=
  derive_repo_name_eq_spec_pipeline url

/-- C6 counterexample.  The claim quantifies over *all* URLs ending in a
trailing slash and/or a `.git` marker: on `"a/.git"` (which ends in the
marker) the code yields `""`, while the URL without the trailing
decorations (`"a/"`, or `"a"` stripping both) yields `"a"`. -/
theorem derive_repo_name_suffix_cex :
    derive_repo_name "a/.git" = "" ∧
    derive_repo_name "a/" = "a" ∧
    derive_repo_name "a" = "a" ∧
    ¬ derive_repo_name "a/.git" = derive_repo_name "a/" := by
  decide

/-- C6 (amended): appending a trailing `/` never changes the derived name;
appending a trailing `".git"` marker does not change it provided the URL
does not already end in `/`; and the three example URLs from the spec all
yield `"foo"`. -/
theorem derive_repo_name_suffix_invariant (u : String) :
    derive_repo_name (u ++ "/") = derive_repo_name u ∧
    (u.data.getLast? ≠ some '/' →
      derive_repo_name (u ++ ".git") = derive_repo_name u) ∧
    derive_repo_name "https://example.com/x/foo.git" = "foo" ∧
    derive_repo_name "https://example.com/x/foo.git/" = "foo" ∧
    derive_repo_name "https://example.com/x/foo" = "foo" := by
  refine ⟨?_, ?_, by decide, by decide, by decide⟩
  · have hd : ("/" : String).data = ['/'] := rfl
    have h1 : revTrimChar '/' ((u ++ "/").data.reverse) =
        revTrimChar '/' (u.data.reverse) := by
      rw [String.data_append, hd, List.reverse_append]
      simp [revTrimChar, List.dropWhile_cons]
    simp only [derive_repo_name]
    rw [h1]
  · intro h
    have hhead : u.data.reverse.head? ≠ some '/' := by
      rw [List.head?_reverse]; exact h
    have hgit : (".git" : String).data = ['.', 'g', 'i', 't'] := rfl
    have e1 : (u ++ ".git").data.reverse = gitRev ++ u.data.reverse := by
      rw [String.data_append, hgit, List.reverse_append]
      rfl
    have hhead2 : (gitRev ++ u.data.reverse).head? ≠ some '/' := by
      intro hco
      have : ('t' : Char) = '/' := by
        have hh : (gitRev ++ u.data.reverse).head? = some 't' := rfl
        rw [hh] at hco
        exact Option.some.inj hco
      exact absurd this (by decide)
    simp only [derive_repo_name]
    rw [e1, revTrimChar_eq_of_head_ne _ hhead2,
      revTrimChar_eq_of_head_ne _ hhead, revTrimStrFuel_git_cons]

/-- Witness for the amended C6 theorem at a concrete URL. -/
theorem derive_repo_name_suffix_invariant_witness :
    derive_repo_name ("https://example.com/x/foo" ++ ".git") =
      derive_repo_name "https://example.com/x/foo" :=
  (derive_repo_name_suffix_invariant "https://example.com/x/foo").2.1 (by decide)

/-! ## Claim theorems: the removal step (C1) -/

/-- C1 counterexample.  The claim says a removal that finds nothing there
(`NotFound` at removal time, after the stat saw an entry) returns success;
in the code only a `NotFound` from the *stat* is success, while a
`NotFound` error from the removal call itself propagates as an error. -/
theorem remove_path_notfound_at_removal_cex :
    remove_path ⟨Except.ok FType.otherFile, Except.error ErrKind.notFound,
        Except.ok ()⟩ = Except.error ErrKind.notFound := rfl

/-- C1 (amended): the removal step classifies the target by the
symlink-aware stat: a symlink (of any kind) is removed by a single-entry
unlink and the recursive-removal oracle is never consulted; a directory is
removed recursively; any other entry is removed as a single file; a
`NotFound` from the stat is success; an error from the removal call itself
(including `NotFound`, when the path disappears between stat and removal)
propagates as an error. -/
theorem remove_path_classification (env : RemoveEnv) :
    (env.statRes = Except.ok FType.symlink →
      remove_path env = env.removeFileRes.map (fun _ => RemoveOp.unlinkedSymlink)) ∧
    (env.statRes = Except.ok FType.symlink → ∀ alt,
      remove_path ⟨env.statRes, env.removeFileRes, alt⟩ = remove_path env) ∧
    (env.statRes = Except.ok FType.dir →
      remove_path env = env.removeDirAllRes.map (fun _ => RemoveOp.removedDirTree)) ∧
    (env.statRes = Except.ok FType.otherFile →
      remove_path env = env.removeFileRes.map (fun _ => RemoveOp.removedSingleFile)) ∧
    (env.statRes = Except.error ErrKind.notFound →
      remove_path env = Except.ok RemoveOp.nothingToRemove) := by
  obtain ⟨s, f, d⟩ := env
  refine ⟨?_, ?_, ?_, ?_, ?_⟩ <;> intro h
  · subst h
    cases f with
    | ok v => cases v; rfl
    | error e => rfl
  · subst h
    intro alt
    cases f with
    | ok v => cases v; rfl
    | error e => rfl
  · subst h
    cases d with
    | ok v => cases v; rfl
    | error e => rfl
  · subst h
    cases f with
    | ok v => cases v; rfl
    | error e => rfl
  · subst h
    rfl

/-- Witness for the amended C1 theorem: a symlink with a succeeding unlink
is removed by the single-entry unlink, and a `NotFound` stat is success. -/
theorem remove_path_classification_witness :
    remove_path ⟨Except.ok FType.symlink, Except.ok (), Except.ok ()⟩ =
      Except.ok RemoveOp.unlinkedSymlink ∧
    remove_path ⟨Except.error ErrKind.notFound, Except.ok (), Except.ok ()⟩ =
      Except.ok RemoveOp.nothingToRemove := by
  constructor
  · have h := (remove_path_classification
      ⟨Except.ok FType.symlink, Except.ok (), Except.ok ()⟩).1 rfl
    simpa using h
  · exact (remove_path_classification
      ⟨Except.error ErrKind.notFound, Except.ok (), Except.ok ()⟩).2.2.2.2 rfl

/-! ## Lemmas about the ideal-filesystem link reconciler -/

section LinkLemmas

lemma setNode_self (fs : FS) (p : String) (n : Option Node) :
    setNode fs p n p = n := by
  simp [setNode]

lemma setNode_ne (fs : FS) (p : String) (n : Option Node) (q : String)
    (h : q ≠ p) : setNode fs p n q = fs q := by
  simp [setNode, h]

lemma removeSubtree_self (fs : FS) (p : String) :
    removeSubtree fs p p = none := by
  simp [removeSubtree]

lemma removeSubtree_ne (fs : FS) (p q : String) (h1 : q ≠ p)
    (h2 : isUnder p q = false) : removeSubtree fs p q = fs q := by
  simp [removeSubtree, h1, h2]

lemma resolves_succ (fs : FS) (fuel : Nat) (p : String) :
    resolves fs (fuel + 1) p =
      match fs p with
      | some (Node.symlinkTo d) => resolves fs fuel d
      | o => o := rfl

lemma path_exists_dir (fs : FS) (p : String) (h : fs p = some Node.dir) :
    path_exists fs p = true := by
  simp only [path_exists, maxFollows]
  rw [show (40 : Nat) = 39 + 1 from rfl, resolves_succ, h]
  rfl

lemma path_exists_file (fs : FS) (p : String) (h : fs p = some Node.file) :
    path_exists fs p = true := by
  simp only [path_exists, maxFollows]
  rw [show (40 : Nat) = 39 + 1 from rfl, resolves_succ, h]
  rfl

lemma path_exists_absent (fs : FS) (p : String) (h : fs p = none) :
    path_exists fs p = false := by
  simp only [path_exists, maxFollows]
  rw [show (40 : Nat) = 39 + 1 from rfl, resolves_succ, h]
  rfl

/-- The code's target-existence test, `target.exists() ||
symlink_exists(&target)`, is exactly symlink-aware existence: it holds iff
`symlink_metadata` would find an entry at the path (a dangling symlink
included). -/
lemma exists_or_symlink (fs : FS) (p : String) :
    (path_exists fs p || symlink_exists fs p) = (fs p).isSome := by
  cases h : fs p with
  | none =>
    rw [path_exists_absent fs p h]
    simp [symlink_exists, h]
  | some n =>
    cases n with
    | file =>
      rw [path_exists_file fs p h]
      simp
    | dir =>
      rw [path_exists_dir fs p h]
      simp
    | symlinkTo d =>
      simp [symlink_exists, h]

lemma remove_path_fs_target (fs : FS) (p : String)
    (h : (fs p).isSome = true) : (remove_path_fs fs p).1 p = none := by
  cases hn : fs p with
  | none => rw [hn] at h; simp at h
  | some n =>
    cases n <;>
      simp [remove_path_fs, hn, setNode_self, removeSubtree_self]

lemma remove_path_fs_preserve (fs : FS) (p q : String) (h1 : q ≠ p)
    (h2 : isUnder p q = false) : (remove_path_fs fs p).1 q = fs q := by
  cases hn : fs p with
  | none => simp [remove_path_fs, hn]
  | some n =>
    cases n <;>
      simp [remove_path_fs, hn, setNode_ne fs p _ q h1,
        removeSubtree_ne fs p q h1 h2]

lemma link_finish_ok (fs2 : FS) (effs : List LinkEff) (source target : String)
    (h : fs2 target = none) :
    link_finish fs2 effs source target =
      ⟨setNode fs2 target (some (Node.symlinkTo source)),
       effs ++ [LinkEff.createdSymlink target source], Except.ok ()⟩ := by
  unfold link_finish
  rw [if_pos h]

/-- Behaviour of the replacement phase: it always succeeds on the ideal
filesystem, leaves a symlink to the source at the target, removes per
`remove_path`, and touches nothing outside the target (and its subtree
when a directory is removed there). -/
lemma link_replace_spec (fs : FS) (effs : List LinkEff) (source target : String) :
    (link_replace fs effs source target).result = Except.ok () ∧
    (link_replace fs effs source target).fs target = some (Node.symlinkTo source) ∧
    (link_replace fs effs source target).effects =
      (effs ++ (if (fs target).isSome then (remove_path_fs fs target).2 else [])) ++
        [LinkEff.createdSymlink target source] ∧
    (∀ q, q ≠ target → isUnder target q = false →
      (link_replace fs effs source target).fs q = fs q) := by
  by_cases hs : (fs target).isSome = true
  · have hcond : (path_exists fs target || symlink_exists fs target) = true := by
      rw [exists_or_symlink fs target]
      exact hs
    have htn : (remove_path_fs fs target).1 target = none :=
      remove_path_fs_target fs target hs
    unfold link_replace
    rw [hcond, if_pos rfl, link_finish_ok _ _ _ _ htn]
    refine ⟨rfl, setNode_self _ _ _, ?_, ?_⟩
    · rw [if_pos hs]
    · intro q hq hu
      dsimp only
      rw [setNode_ne _ _ _ _ hq]
      exact remove_path_fs_preserve fs target q hq hu
  · have hn : fs target = none := by
      cases hn : fs target with
      | none => rfl
      | some n => rw [hn] at hs; simp at hs
    have hcond : (path_exists fs target || symlink_exists fs target) = false := by
      rw [exists_or_symlink fs target, hn]
      rfl
    unfold link_replace
    rw [hcond, if_neg (by simp), link_finish_ok _ _ _ _ hn]
    refine ⟨rfl, setNode_self _ _ _, ?_, ?_⟩
    · rw [if_neg hs]
      simp
    · intro q hq _
      dsimp only
      exact setNode_ne _ _ _ _ hq

/-- Behaviour of `cmd_link` when the source is a directory and the target
is neither the source, above the source, nor the config directory: the
run succeeds, the target ends as a symlink to the source, and the source
entry is untouched. -/
lemma cmd_link_ok_spec (fs : FS) (source configDir target : String)
    (hsrc : fs source = some Node.dir)
    (hts : target ≠ source)
    (hund : isUnder target source = false) :
    (cmd_link fs source configDir target).result = Except.ok () ∧
    (cmd_link fs source configDir target).fs target = some (Node.symlinkTo source) ∧
    (cmd_link fs source configDir target).fs source = some Node.dir := by
  have hpe : path_exists fs source = true := path_exists_dir fs source hsrc
  unfold cmd_link
  rw [hpe, if_neg (by simp)]
  by_cases hcd : path_exists fs configDir = true
  · rw [if_pos hcd]
    have h := link_replace_spec fs [] source target
    refine ⟨h.1, h.2.1, ?_⟩
    rw [h.2.2.2 source (Ne.symm hts) hund]
    exact hsrc
  · rw [if_neg hcd]
    have hcs : configDir ≠ source := by
      intro he
      rw [he] at hcd
      exact hcd hpe
    have hsrc2 : setNode fs configDir (some Node.dir) source = some Node.dir := by
      rw [setNode_ne fs configDir _ source (Ne.symm hcs)]
      exact hsrc
    have h := link_replace_spec (setNode fs configDir (some Node.dir))
      [LinkEff.createdConfigDir configDir] source target
    refine ⟨h.1, h.2.1, ?_⟩
    rw [h.2.2.2 source (Ne.symm hts) hund]
    exact hsrc2

end LinkLemmas

/-! ## Claim theorems: the link reconciler (C2, C3, C4) -/

/-- C2: when the source path does not exist (by the code's
symlink-following `Path::exists` check), `cmd_link` fails with
`SourceNotFound` before performing any destructive action — the
filesystem is unchanged and the effect trace is empty, so an existing
target is never removed. -/
theorem cmd_link_source_precheck (fs : FS) (source configDir target : String)
    (h : path_exists fs source = false) :
    (cmd_link fs source configDir target).result =
        Except.error CmdError.sourceNotFound ∧
    (cmd_link fs source configDir target).fs = fs ∧
    (cmd_link fs source configDir target).effects = [] := by
  unfold cmd_link
  rw [h, if_pos rfl]
  exact ⟨rfl, rfl, rfl⟩

/-- Witness for C2: on an empty filesystem, linking fails with
`SourceNotFound` and leaves no trace. -/
theorem cmd_link_source_precheck_witness :
    (cmd_link (fun _ => none) "s" "c" "c/t").result =
        Except.error CmdError.sourceNotFound ∧
    (cmd_link (fun _ => none) "s" "c" "c/t").effects = [] := by
  have h := cmd_link_source_precheck (fun _ => none) "s" "c" "c/t" (by decide)
  exact ⟨h.1, h.2.2⟩

/-- C3: the code decides target existence by
`target.exists() || symlink_exists(&target)`, which coincides with a
symlink-aware stat (first conjunct, for every filesystem and path); hence
a dangling symlink at the target counts as existing, and `cmd_link`
succeeds on it, removes it by a single-entry unlink (never by recursive
directory removal), and replaces it with the new symlink. -/
theorem cmd_link_dangling_symlink (fs : FS) (source configDir target d : String)
    (hsrc : fs source = some Node.dir)
    (htgt : fs target = some (Node.symlinkTo d))
    (hdangling : fs d = none)
    (htc : target ≠ configDir) :
    (∀ (g : FS) (p : String),
      (path_exists g p || symlink_exists g p) = (g p).isSome) ∧
    (cmd_link fs source configDir target).result = Except.ok () ∧
    LinkEff.removedSymlinkAt target ∈ (cmd_link fs source configDir target).effects ∧
    (∀ p, LinkEff.removedDirTreeAt p ∉ (cmd_link fs source configDir target).effects) ∧
    (cmd_link fs source configDir target).fs target = some (Node.symlinkTo source) := by
  have hts : target ≠ source := by
    intro he
    rw [he, hsrc] at htgt
    exact absurd htgt (by simp)
  have hpe : path_exists fs source = true := path_exists_dir fs source hsrc
  have hrm : (remove_path_fs fs target).2 = [LinkEff.removedSymlinkAt target] := by
    simp [remove_path_fs, htgt]
  have hsome : (fs target).isSome = true := by rw [htgt]; rfl
  refine ⟨exists_or_symlink, ?_, ?_, ?_, ?_⟩
  all_goals
    unfold cmd_link
    rw [hpe, if_neg (by simp)]
  all_goals by_cases hcd : path_exists fs configDir = true
  case pos =>
    rw [if_pos hcd]
    exact (link_replace_spec fs [] source target).1
  case neg =>
    rw [if_neg hcd]
    exact (link_replace_spec _ _ source target).1
  case pos =>
    rw [if_pos hcd]
    rw [(link_replace_spec fs [] source target).2.2.1, if_pos hsome, hrm]
    simp
  case neg =>
    rw [if_neg hcd]
    have htgt2 : setNode fs configDir (some Node.dir) target =
        some (Node.symlinkTo d) := by
      rw [setNode_ne fs configDir _ target htc]
      exact htgt
    have hsome2 : (setNode fs configDir (some Node.dir) target).isSome = true := by
      rw [htgt2]; rfl
    have hrm2 : (remove_path_fs (setNode fs configDir (some Node.dir)) target).2 =
        [LinkEff.removedSymlinkAt target] := by
      simp [remove_path_fs, htgt2]
    rw [(link_replace_spec _ _ source target).2.2.1, if_pos hsome2, hrm2]
    simp
  case pos =>
    intro p
    rw [if_pos hcd]
    rw [(link_replace_spec fs [] source target).2.2.1, if_pos hsome, hrm]
    simp
  case neg =>
    intro p
    rw [if_neg hcd]
    have htgt2 : setNode fs configDir (some Node.dir) target =
        some (Node.symlinkTo d) := by
      rw [setNode_ne fs configDir _ target htc]
      exact htgt
    have hsome2 : (setNode fs configDir (some Node.dir) target).isSome = true := by
      rw [htgt2]; rfl
    have hrm2 : (remove_path_fs (setNode fs configDir (some Node.dir)) target).2 =
        [LinkEff.removedSymlinkAt target] := by
      simp [remove_path_fs, htgt2]
    rw [(link_replace_spec _ _ source target).2.2.1, if_pos hsome2, hrm2]
    simp
  case pos =>
    rw [if_pos hcd]
    exact (link_replace_spec fs [] source target).2.1
  case neg =>
    rw [if_neg hcd]
    exact (link_replace_spec _ _ source target).2.1

/-- Witness for C3 at a concrete filesystem: the source `"s"` is a
directory, the target `"c/t"` a dangling symlink to `"gone"`. -/
theorem cmd_link_dangling_symlink_witness :
    (cmd_link
        (fun p => if p = "s" then some Node.dir
          else if p = "c" then some Node.dir
          else if p = "c/t" then some (Node.symlinkTo "gone") else none)
        "s" "c" "c/t").result = Except.ok () := by
  have h := cmd_link_dangling_symlink
    (fun p => if p = "s" then some Node.dir
      else if p = "c" then some Node.dir
      else if p = "c/t" then some (Node.symlinkTo "gone") else none)
    "s" "c" "c/t" "gone" (by decide) (by decide) (by decide) (by decide)
  exact h.2.1

/-- C4: link reconciliation is idempotent.  For a source directory and a
target distinct from the source, not above it, and distinct from the
config directory: the first `cmd_link` succeeds and leaves the target a
symlink whose destination is the source and which resolves to the source
directory; running `cmd_link` again on the resulting filesystem succeeds
as well and leaves the target a symlink to that same source. -/
theorem cmd_link_idempotent (fs : FS) (source configDir target : String)
    (hsrc : fs source = some Node.dir)
    (hts : target ≠ source)
    (hund : isUnder target source = false) :
    (cmd_link fs source configDir target).result = Except.ok () ∧
    (cmd_link fs source configDir target).fs target = some (Node.symlinkTo source) ∧
    resolves (cmd_link fs source configDir target).fs maxFollows target =
      some Node.dir ∧
    (cmd_link (cmd_link fs source configDir target).fs source configDir target).result =
      Except.ok () ∧
    (cmd_link (cmd_link fs source configDir target).fs source configDir target).fs target =
      some (Node.symlinkTo source) := by
  have h1 := cmd_link_ok_spec fs source configDir target hsrc hts hund
  have h2 := cmd_link_ok_spec (cmd_link fs source configDir target).fs source
    configDir target h1.2.2 hts hund
  have hres : resolves (cmd_link fs source configDir target).fs maxFollows target =
      some Node.dir := by
    rw [maxFollows, show (40 : Nat) = 39 + 1 from rfl, resolves_succ, h1.2.1]
    dsimp only
    rw [resolves_succ, h1.2.2]
  exact ⟨h1.1, h1.2.1, hres, h2.1, h2.2.1⟩

/-- Witness for C4 at a concrete filesystem with one stored repository. -/
theorem cmd_link_idempotent_witness :
    (cmd_link (fun p => if p = "s" then some Node.dir else none)
        "s" "c" "c/t").result = Except.ok () ∧
    (cmd_link
        (cmd_link (fun p => if p = "s" then some Node.dir else none)
          "s" "c" "c/t").fs "s" "c" "c/t").result = Except.ok () := by
  have h := cmd_link_idempotent (fun p => if p = "s" then some Node.dir else none)
    "s" "c" "c/t" (by decide) (by decide) (by decide)
  exact ⟨h.1, h.2.2.2.1⟩

/-! ## Claim theorems: install (C7, C9) -/

/-- Environment with the store root absent but creatable, an empty store,
and a working external tool. -/
def installEnvNoStore : InstallEnv :=
  ⟨false, true, fun _ => false, true, true, true⟩

/-- C7 counterexample.  The claim says the `InvalidRepoUrl` rejection
happens before the operation touches the filesystem; but `cmd_install`
calls `ensure_dotman_dir` first, so with the store root absent the run on
`"///"` (whose derived name is empty) creates the store directory and only
then fails with `InvalidRepoUrl`. -/
theorem cmd_install_store_created_before_name_check_cex :
    cmd_install installEnvNoStore "///" =
      ([InstallEff.createdStoreDir], Except.error CmdError.invalidRepoUrl) := rfl

/-- C7 (amended): for every URL whose derived name is empty (such as `""`
and `"///"`), install fails with `InvalidRepoUrl` before invoking any
clone and without touching the store entry; the only filesystem effect
that can precede the rejection is the creation of the store root by
`ensure_dotman_dir`, which runs before the name check. -/
theorem cmd_install_rejects_empty_name (env : InstallEnv) (url : String)
    (hname : derive_repo_name url = "")
    (hstore : env.storeExists = true ∨ env.createStoreOk = true) :
    (cmd_install env url).2 = Except.error CmdError.invalidRepoUrl ∧
    (∀ u n, InstallEff.invokedClone u n ∉ (cmd_install env url).1) ∧
    (cmd_install env url).1 =
      (if env.storeExists then [] else [InstallEff.createdStoreDir]) := by
  obtain ⟨se, co, de, gp, sp, cl⟩ := env
  cases se with
  | true =>
    simp [cmd_install, ensure_dotman_dir, hname]
  | false =>
    cases co with
    | true => simp [cmd_install, ensure_dotman_dir, hname]
    | false => simp at hstore

/-- Witness for the amended C7 theorem: with the store already present,
installing `"///"` is rejected with `InvalidRepoUrl` and no effect. -/
theorem cmd_install_rejects_empty_name_witness :
    (cmd_install ⟨true, true, fun _ => false, true, true, true⟩ "///").2 =
        Except.error CmdError.invalidRepoUrl ∧
    (cmd_install ⟨true, true, fun _ => false, true, true, true⟩ "///").1 = [] := by
  have h := cmd_install_rejects_empty_name
    ⟨true, true, fun _ => false, true, true, true⟩ "///" (by decide) (Or.inl rfl)
  exact ⟨h.1, h.2.2⟩

/-- C9: when the derived name already exists under the store,
`cmd_install` reports success without ever invoking the external clone
operation. -/
theorem cmd_install_existing_dest_no_clone (env : InstallEnv) (url : String)
    (hstore : env.storeExists = true ∨ env.createStoreOk = true)
    (hname : derive_repo_name url ≠ "")
    (hdest : env.destExists (derive_repo_name url) = true) :
    (cmd_install env url).2 = Except.ok () ∧
    (∀ u n, InstallEff.invokedClone u n ∉ (cmd_install env url).1) := by
  obtain ⟨se, co, de, gp, sp, cl⟩ := env
  cases se with
  | true =>
    simp only at hdest
    simp [cmd_install, ensure_dotman_dir, hname, hdest]
  | false =>
    cases co with
    | true =>
      simp only at hdest
      simp [cmd_install, ensure_dotman_dir, hname, hdest]
    | false => simp at hstore

/-- Witness for C9: installing into a store that already has the entry
succeeds without a clone. -/
theorem cmd_install_existing_dest_no_clone_witness :
    (cmd_install ⟨true, true, fun _ => true, true, true, true⟩ "r").2 =
      Except.ok () := by
  exact (cmd_install_existing_dest_no_clone
    ⟨true, true, fun _ => true, true, true, true⟩ "r"
    (Or.inl rfl) (by decide) rfl).1

/-! ## Lemmas about the update loop -/

section UpdateLemmas

/-- When every spawn succeeds the loop never aborts and returns the two
tallies: directories with `.git` whose pull exits zero are counted as
updated, directories without `.git` as skipped. -/
lemma update_loop_counts (es : List RepoEntry) :
    (∀ e ∈ es, e.spawnOk = true) → ∀ (u s : Nat),
      (update_loop es u s).2 = Except.ok
        (u + (es.filter (fun e => e.isDir && e.hasGit && e.pullExitOk)).length,
         s + (es.filter (fun e => e.isDir && !e.hasGit)).length) := by
  induction es with
  | nil =>
    intro _ u s
    simp [update_loop]
  | cons e rest ih =>
    intro hsp u s
    have he : e.spawnOk = true := hsp e (List.mem_cons_self e rest)
    have hrest : ∀ x ∈ rest, x.spawnOk = true :=
      fun x hx => hsp x (List.mem_cons_of_mem e hx)
    cases hd : e.isDir with
    | false =>
      have hstep : update_loop (e :: rest) u s = update_loop rest u s := by
        simp [update_loop, hd]
      rw [hstep, ih hrest u s]
      simp [List.filter_cons, hd] <;> omega
    | true =>
      cases hg : e.hasGit with
      | false =>
        have hstep : update_loop (e :: rest) u s = update_loop rest u (s + 1) := by
          simp [update_loop, hd, hg]
        rw [hstep, ih hrest u (s + 1)]
        simp [List.filter_cons, hd, hg] <;> omega
      | true =>
        cases hp : e.pullExitOk with
        | true =>
          have hstep : update_loop (e :: rest) u s =
              (UpdateEff.invokedPull e.path :: (update_loop rest (u + 1) s).1,
                (update_loop rest (u + 1) s).2) := by
            simp [update_loop, hd, hg, he, hp]
          rw [hstep]
          simp only
          rw [ih hrest (u + 1) s]
          simp [List.filter_cons, hd, hg, hp] <;> omega
        | false =>
          have hstep : update_loop (e :: rest) u s =
              (UpdateEff.invokedPull e.path :: UpdateEff.pullFailedLog e.path ::
                (update_loop rest u s).1, (update_loop rest u s).2) := by
            simp [update_loop, hd, hg, he, hp]
          rw [hstep]
          simp only
          rw [ih hrest u s]
          simp [List.filter_cons, hd, hg, hp] <;> omega

/-- When every spawn succeeds, each directory entry with `.git` gets its
pull invoked, and each such entry whose pull exits non-zero gets a failure
log line; no abort hides later entries. -/
lemma update_loop_effects (es : List RepoEntry) :
    (∀ e ∈ es, e.spawnOk = true) → ∀ (u s : Nat) (e : RepoEntry), e ∈ es →
      e.isDir = true → e.hasGit = true →
      UpdateEff.invokedPull e.path ∈ (update_loop es u s).1 ∧
      (e.pullExitOk = false →
        UpdateEff.pullFailedLog e.path ∈ (update_loop es u s).1) := by
  induction es with
  | nil =>
    intro _ u s e he
    simp at he
  | cons a rest ih =>
    intro hsp u s e he hd hg
    have ha : a.spawnOk = true := hsp a (List.mem_cons_self a rest)
    have hrest : ∀ x ∈ rest, x.spawnOk = true :=
      fun x hx => hsp x (List.mem_cons_of_mem a hx)
    rcases List.mem_cons.mp he with hea | hetail
    · subst hea
      cases hp : e.pullExitOk with
      | true =>
        have hstep : update_loop (e :: rest) u s =
            (UpdateEff.invokedPull e.path :: (update_loop rest (u + 1) s).1,
              (update_loop rest (u + 1) s).2) := by
          simp [update_loop, hd, hg, ha, hp]
        rw [hstep]
        constructor
        · simp
        · intro hco
          exact absurd hco (by decide)
      | false =>
        have hstep : update_loop (e :: rest) u s =
            (UpdateEff.invokedPull e.path :: UpdateEff.pullFailedLog e.path ::
              (update_loop rest u s).1, (update_loop rest u s).2) := by
          simp [update_loop, hd, hg, ha, hp]
        rw [hstep]
        exact ⟨by simp, fun _ => by simp⟩
    · cases had : a.isDir with
      | false =>
        have hstep : update_loop (a :: rest) u s = update_loop rest u s := by
          simp [update_loop, had]
        rw [hstep]
        exact ih hrest u s e hetail hd hg
      | true =>
        cases hag : a.hasGit with
        | false =>
          have hstep : update_loop (a :: rest) u s = update_loop rest u (s + 1) := by
            simp [update_loop, had, hag]
          rw [hstep]
          exact ih hrest u (s + 1) e hetail hd hg
        | true =>
          cases hap : a.pullExitOk with
          | true =>
            have hstep : update_loop (a :: rest) u s =
                (UpdateEff.invokedPull a.path :: (update_loop rest (u + 1) s).1,
                  (update_loop rest (u + 1) s).2) := by
              simp [update_loop, had, hag, ha, hap]
            rw [hstep]
            have h := ih hrest (u + 1) s e hetail hd hg
            exact ⟨by simp [h.1], fun hco => by simp [h.2 hco]⟩
          | false =>
            have hstep : update_loop (a :: rest) u s =
                (UpdateEff.invokedPull a.path :: UpdateEff.pullFailedLog a.path ::
                  (update_loop rest u s).1, (update_loop rest u s).2) := by
              simp [update_loop, had, hag, ha, hap]
            rw [hstep]
            have h := ih hrest u s e hetail hd hg
            exact ⟨by simp [h.1], fun hco => by simp [h.2 hco]⟩

/-- The tallies partition the directory entries together with the failed
pulls: updated + skipped + failed = number of directory entries. -/
lemma filter_partition_counts (es : List RepoEntry) :
    (es.filter (fun e => e.isDir && e.hasGit && e.pullExitOk)).length +
      (es.filter (fun e => e.isDir && !e.hasGit)).length +
      (es.filter (fun e => e.isDir && e.hasGit && !e.pullExitOk)).length =
      (es.filter (fun e => e.isDir)).length := by
  induction es with
  | nil => rfl
  | cons e rest ih =>
    simp only [List.filter_cons]
    cases hd : e.isDir <;> cases hg : e.hasGit <;> cases hp : e.pullExitOk <;>
      simp [hd, hg, hp] <;> omega

end UpdateLemmas

/-! ## Claim theorems: update (C8, C10) -/

/-- Environment with one stored repository whose pull fails. -/
def updateEnvOneFail : UpdateEnv :=
  ⟨true, true, true, true, [⟨"r1", true, true, true, false⟩]⟩

/-- C8 counterexample.  The claim says a per-repository pull failure is
"logged and counted"; it is logged, but it is counted in no tally the run
produces: over a store whose single directory entry has `.git` and a
failing pull, the terminal summary reports 0 updated and 0 skipped, so the
failure is accounted nowhere. -/
theorem cmd_update_failure_not_tallied_cex :
    cmd_update updateEnvOneFail =
      ([UpdateEff.invokedPull "r1", UpdateEff.pullFailedLog "r1",
        UpdateEff.summaryLine 0 0], Except.ok ()) ∧
    updateEnvOneFail.entries.length = 1 := ⟨rfl, rfl⟩

/-- C8 (amended): during update (with the store readable, `git` on the
path, and every pull process spawning), a per-repository pull failure
never aborts the remaining iterations: every directory entry with `.git`
has its pull invoked, every failing one is logged, the run succeeds and
always reaches the terminal summary line of updated versus skipped counts
— but a failed pull is not counted in either tally. -/
theorem cmd_update_pull_failure_no_abort (env : UpdateEnv)
    (hstore : env.storeExists = true ∨ env.createStoreOk = true)
    (hgit : env.gitOnPath = true)
    (hrd : env.readDirOk = true)
    (hsp : ∀ e ∈ env.entries, e.spawnOk = true) :
    (cmd_update env).2 = Except.ok () ∧
    (∃ u s, UpdateEff.summaryLine u s ∈ (cmd_update env).1) ∧
    (∀ e ∈ env.entries, e.isDir = true → e.hasGit = true →
      UpdateEff.invokedPull e.path ∈ (cmd_update env).1 ∧
      (e.pullExitOk = false →
        UpdateEff.pullFailedLog e.path ∈ (cmd_update env).1)) := by
  have hc := update_loop_counts env.entries hsp 0 0
  have hcond : ¬ (env.storeExists = false ∧ env.createStoreOk = false) := by
    rcases hstore with h | h <;> rw [h] <;> simp
  cases hU : update_loop env.entries 0 0 with
  | mk effs r2 =>
    rw [hU] at hc
    simp only at hc
    have hcu : cmd_update env =
        ((if env.storeExists then [] else [UpdateEff.createdStoreDir]) ++ effs ++
          [UpdateEff.summaryLine
            (0 + (env.entries.filter (fun e => e.isDir && e.hasGit && e.pullExitOk)).length)
            (0 + (env.entries.filter (fun e => e.isDir && !e.hasGit)).length)],
         Except.ok ()) := by
      unfold cmd_update
      rw [if_neg hcond, hgit, hrd, if_neg (by simp), if_neg (by simp), hU, hc]
    rw [hcu]
    refine ⟨rfl,
      ⟨(env.entries.filter (fun e => e.isDir && e.hasGit && e.pullExitOk)).length,
       (env.entries.filter (fun e => e.isDir && !e.hasGit)).length, by simp⟩, ?_⟩
    intro e he hd hg
    have hm := update_loop_effects env.entries hsp 0 0 e he hd hg
    rw [hU] at hm
    simp only at hm
    exact ⟨by simp [hm.1], fun hco => by simp [hm.2 hco]⟩

/-- Witness for the amended C8 theorem: a two-entry store where the first
pull fails still pulls the second repository and reaches the summary. -/
theorem cmd_update_pull_failure_no_abort_witness :
    (cmd_update ⟨true, true, true, true,
        [⟨"bad", true, true, true, false⟩, ⟨"good", true, true, true, true⟩]⟩).2 =
      Except.ok () ∧
    UpdateEff.invokedPull "good" ∈
      (cmd_update ⟨true, true, true, true,
        [⟨"bad", true, true, true, false⟩, ⟨"good", true, true, true, true⟩]⟩).1 := by
  have h := cmd_update_pull_failure_no_abort
    ⟨true, true, true, true,
      [⟨"bad", true, true, true, false⟩, ⟨"good", true, true, true, true⟩]⟩
    (Or.inl rfl) rfl rfl (by decide)
  refine ⟨h.1, ?_⟩
  exact (h.2.2 ⟨"good", true, true, true, true⟩ (by decide) rfl rfl).1

/-- C10: in update's final summary (store readable, `git` present, all
pull processes spawning), a failed pull is counted in neither tally and
non-directory entries are silently ignored: updated + skipped + failed
pulls = number of directory entries, hence updated + skipped is at most
the number of directory entries, and is strictly less exactly when some
directory entry with `.git` has a failing pull. -/
theorem cmd_update_summary_counts (env : UpdateEnv)
    (hstore : env.storeExists = true ∨ env.createStoreOk = true)
    (hgit : env.gitOnPath = true)
    (hrd : env.readDirOk = true)
    (hsp : ∀ e ∈ env.entries, e.spawnOk = true) :
    UpdateEff.summaryLine
        ((env.entries.filter (fun e => e.isDir && e.hasGit && e.pullExitOk)).length)
        ((env.entries.filter (fun e => e.isDir && !e.hasGit)).length)
      ∈ (cmd_update env).1 ∧
    (env.entries.filter (fun e => e.isDir && e.hasGit && e.pullExitOk)).length +
        (env.entries.filter (fun e => e.isDir && !e.hasGit)).length +
        (env.entries.filter (fun e => e.isDir && e.hasGit && !e.pullExitOk)).length =
      (env.entries.filter (fun e => e.isDir)).length ∧
    (env.entries.filter (fun e => e.isDir && e.hasGit && e.pullExitOk)).length +
        (env.entries.filter (fun e => e.isDir && !e.hasGit)).length ≤
      (env.entries.filter (fun e => e.isDir)).length ∧
    ((env.entries.filter (fun e => e.isDir && e.hasGit && e.pullExitOk)).length +
          (env.entries.filter (fun e => e.isDir && !e.hasGit)).length <
        (env.entries.filter (fun e => e.isDir)).length ↔
      ∃ e ∈ env.entries, e.isDir = true ∧ e.hasGit = true ∧ e.pullExitOk = false) := by
  have hpart := filter_partition_counts env.entries
  have hc := update_loop_counts env.entries hsp 0 0
  have hcond : ¬ (env.storeExists = false ∧ env.createStoreOk = false) := by
    rcases hstore with h | h <;> rw [h] <;> simp
  have hiff : 0 < (env.entries.filter
      (fun e => e.isDir && e.hasGit && !e.pullExitOk)).length ↔
      ∃ e ∈ env.entries, e.isDir = true ∧ e.hasGit = true ∧ e.pullExitOk = false := by
    rw [List.length_pos_iff_exists_mem]
    constructor
    · rintro ⟨a, ha⟩
      rw [List.mem_filter] at ha
      refine ⟨a, ha.1, ?_⟩
      have := ha.2
      simp only [Bool.and_eq_true, Bool.not_eq_true'] at this
      exact ⟨this.1.1, this.1.2, this.2⟩
    · rintro ⟨a, ha, h1, h2, h3⟩
      exact ⟨a, List.mem_filter.mpr ⟨ha, by simp [h1, h2, h3]⟩⟩
  refine ⟨?_, hpart, by omega, by rw [← hiff]; omega⟩
  cases hU : update_loop env.entries 0 0 with
  | mk effs r2 =>
    rw [hU] at hc
    simp only at hc
    have hcu : cmd_update env =
        ((if env.storeExists then [] else [UpdateEff.createdStoreDir]) ++ effs ++
          [UpdateEff.summaryLine
            (0 + (env.entries.filter (fun e => e.isDir && e.hasGit && e.pullExitOk)).length)
            (0 + (env.entries.filter (fun e => e.isDir && !e.hasGit)).length)],
         Except.ok ()) := by
      unfold cmd_update
      rw [if_neg hcond, hgit, hrd, if_neg (by simp), if_neg (by simp), hU, hc]
    rw [hcu]
    simp

/-- Witness for C10: one failing vcs repository, one plain directory, one
non-directory entry — the summary reports 0 updated, 1 skipped, over 2
directory entries. -/
theorem cmd_update_summary_counts_witness :
    UpdateEff.summaryLine 0 1 ∈
      (cmd_update ⟨true, true, true, true,
        [⟨"bad", true, true, true, false⟩, ⟨"plain", true, false, true, true⟩,
         ⟨"stray", false, false, true, true⟩]⟩).1 := by
  have h := cmd_update_summary_counts
    ⟨true, true, true, true,
      [⟨"bad", true, true, true, false⟩, ⟨"plain", true, false, true, true⟩,
       ⟨"stray", false, false, true, true⟩]⟩
    (Or.inl rfl) rfl rfl (by decide)
  have h1 := h.1
  simpa using h1

end Dotman
